import Mathlib

/- Verification development for the mindnetwork batch eligibility checker
and claimer (src/claim.js and src/check.js).  The two scripts share a
retry controller (checkEligibilityWithRetry), a per-wallet pipeline
(processWallet) and a rolling-window task pool (processWallets); the
claim variant additionally builds and submits an on-chain claim
transaction.  Everything below is a shallow embedding of that code:
external collaborators (HTTP client, signer, JSON parser, chain) appear
as oracles, machine integers are Nat/Int, JS exceptions are Except. -/

set_option maxHeartbeats 1000000

/-- Error thrown by `requestManager.simpleRequest` (claim.js line 120,
check.js line 63).  The optional field models `error.response?.status`,
which the retry loop inspects to detect HTTP 429. -/
inductive AttemptErr where
  | http (status : Option Nat)
deriving DecidableEq, Repr

/-- The `data` object of an eligibility response: `amount` is a
string-encoded base-unit integer, `proof` a JSON-encoded array of hex
strings (claim.js lines 177, 193).  Absent fields are `none`. -/
structure EligData where
  amount : Option String
  proof : Option String
deriving DecidableEq, Repr

/-- An eligibility response body: top-level numeric `code` (0 = ok) and
an optional `data` object (claim.js lines 136, 177). -/
structure Response where
  code : Int
  data : Option EligData
deriving DecidableEq, Repr

/-- Errors that can become `lastError` in checkEligibilityWithRetry:
either the Error thrown on a non-zero `code` (claim.js line 140) or the
exception from the request itself. -/
inductive RetryError where
  | badCode (code : Int)
  | req (e : AttemptErr)
deriving DecidableEq, Repr

/-- Observable behaviour of one run of the retry loop: the value
returned or error thrown, the number of attempts issued, and the list of
`delay` waits performed, in order, in milliseconds. -/
structure RetryTrace where
  result : Except RetryError Response
  attempts : Nat
  waits : List Nat

/-- Whether a single attempt result triggers the 429 branch
(`error.response?.status === 429`, claim.js line 147).  The Error thrown
on a non-zero code has no `response` field, so it never matches. -/
def is429 : Except AttemptErr Response → Bool
  | Except.error (AttemptErr.http st) => st == some 429
  | Except.ok _ => false

/-- The error recorded in `lastError` for a failed attempt: a thrown
request error is kept as is, a response with non-zero code becomes the
Error of claim.js line 140. -/
def errOf : Except AttemptErr Response → RetryError
  | Except.ok r => RetryError.badCode r.code
  | Except.error e => RetryError.req e

/-- Whether an attempt counts as a success for the loop: it must return
a response (not throw) and the response's `code` must be 0
(claim.js line 136). -/
def isSuccess : Except AttemptErr Response → Bool
  | Except.ok r => r.code == 0
  | Except.error _ => false

/-- Wait performed after the k-th failed attempt (k counted from 1,
equalling `retryCount` after the increment), as claimed by the spec and
read off claim.js lines 147-159: a 429 always waits `5000 + k*2000`;
any other failure waits `k*1000` but only when `k < maxRetries`. -/
def specWaitAfter (r : Except AttemptErr Response) (k maxRetries : Nat) : List Nat :=
  if is429 r then [5000 + k * 2000]
  else if k < maxRetries then [k * 1000]
  else []

/-- The body of checkEligibilityWithRetry (claim.js lines 114-164,
identically check.js lines 57-106).  `oracle n` is the result of the
`simpleRequest` call issued while `retryCount = n`.  The `fuel`
argument only drives structural recursion; it is instantiated with
`maxRetries - retryCount` iterations to spare, which is an upper bound
on the remaining trips through the `while (retryCount < maxRetries)`
loop since every iteration increments `retryCount` exactly once, so the
fuel-0 case coincides with the loop exit. -/
def retryGo (oracle : Nat → Except AttemptErr Response) (maxRetries : Nat) :
    Nat → Nat → Option RetryError → RetryTrace
  | 0, _, lastError =>
      ⟨Except.error (lastError.getD (RetryError.req (AttemptErr.http none))), 0, []⟩
  | fuel + 1, retryCount, lastError =>
      if retryCount < maxRetries then
        match oracle retryCount with
        | Except.ok resp =>
            if resp.code == 0 then
              ⟨Except.ok resp, 1, []⟩
            else
              -- `throw new Error(...)` on a non-zero code; the catch block
              -- increments retryCount and, since this Error carries no
              -- `response`, takes the generic branch with its guard.
              let e := RetryError.badCode resp.code
              if retryCount + 1 < maxRetries then
                let rest := retryGo oracle maxRetries fuel (retryCount + 1) (some e)
                ⟨rest.result, rest.attempts + 1, (retryCount + 1) * 1000 :: rest.waits⟩
              else
                let rest := retryGo oracle maxRetries fuel (retryCount + 1) (some e)
                ⟨rest.result, rest.attempts + 1, rest.waits⟩
        | Except.error (AttemptErr.http st) =>
            let e := RetryError.req (AttemptErr.http st)
            if st == some 429 then
              -- 429 branch: waits unconditionally, even after the final attempt.
              let rest := retryGo oracle maxRetries fuel (retryCount + 1) (some e)
              ⟨rest.result, rest.attempts + 1, (5000 + (retryCount + 1) * 2000) :: rest.waits⟩
            else if retryCount + 1 < maxRetries then
              let rest := retryGo oracle maxRetries fuel (retryCount + 1) (some e)
              ⟨rest.result, rest.attempts + 1, (retryCount + 1) * 1000 :: rest.waits⟩
            else
              let rest := retryGo oracle maxRetries fuel (retryCount + 1) (some e)
              ⟨rest.result, rest.attempts + 1, rest.waits⟩
      else
        ⟨Except.error (lastError.getD (RetryError.req (AttemptErr.http none))), 0, []⟩

/-- checkEligibilityWithRetry: the loop run from `retryCount = 0` with
`this.maxRetries = 5` (claim.js line 14) and no `lastError` yet. -/
def checkEligibilityWithRetry (oracle : Nat → Except AttemptErr Response) : RetryTrace :=
  retryGo oracle 5 5 0 none

/-- An environment in which every request is rejected with HTTP 429. -/
def oracle429 : Nat → Except AttemptErr Response :=
  fun _ => Except.error (AttemptErr.http (some 429))

/-- A response carrying code 0 and no data. -/
def respBare : Response := ⟨0, none⟩

/-- An environment whose first attempt returns an application-level
error code, whose second throws a network error, and whose third
succeeds. -/
def oracleThird : Nat → Except AttemptErr Response :=
  fun k =>
    if k = 0 then Except.ok ⟨7, none⟩
    else if k = 1 then Except.error (AttemptErr.http none)
    else Except.ok respBare

/-- JS `BigInt(string)` restricted to the shapes this program can meet:
an empty string yields 0 (as `BigInt("")` does), a non-empty string of
decimal digits yields its value, and anything else throws (`none`).
Hex/octal/sign/whitespace numerals are not modelled; no modelled input
uses them. -/
def parseBigNat (s : String) : Option Nat :=
  if s.data = [] then some 0
  else if s.data.all Char.isDigit then
    some (s.data.foldl (fun n c => n * 10 + (c.toNat - 48)) 0)
  else none

/-- Drop trailing `'0'` characters but keep at least one digit, as the
fraction-trimming step of ethers' formatUnits does. -/
def trimTrailZeros (l : List Char) : List Char :=
  match (l.reverse.dropWhile (fun c => c == '0')).reverse with
  | [] => ['0']
  | r => r

/-- ethers.formatEther for non-negative values: split the base-unit
value at 18 decimals, left-pad the fraction to 18 digits, trim its
trailing zeros keeping at least one, and join with a dot.  So 0 prints
as "0.0" and 10^18 as "1.0". -/
def formatEther (n : Nat) : String :=
  let whole := Nat.repr (n / 10 ^ 18)
  let frac := Nat.repr (n % 10 ^ 18)
  let fracPadded := List.replicate (18 - frac.data.length) '0' ++ frac.data
  whole ++ "." ++ String.mk (trimTrailZeros fracPadded)

/-- formatTokenAmount (claim.js lines 75-84, check.js lines 18-27).
`none` models an absent (null/undefined) amount.  The JS guard
`if (!amount) return '0'` fires on the falsy values undefined/null and
the empty string, but NOT on the non-empty (hence truthy) string "0";
when `BigInt(amount)` throws, the catch block returns "0". -/
def formatTokenAmount (amount : Option String) : String :=
  match amount with
  | none => "0"
  | some s =>
    if s = "" then "0"
    else
      match parseBigNat s with
      | none => "0"
      | some n => formatEther n

/-- Strip a leading "0x": `p.startsWith('0x') ? p.slice(2) : p`
(claim.js line 32). -/
def stripHex0x : List Char → List Char
  | '0' :: 'x' :: rest => rest
  | l => l

/-- JS `String.prototype.padStart(n, "0")` on characters: a string at
least n long is returned unchanged, otherwise pad characters are
prepended up to length n (claim.js line 34). -/
def padStart (n : Nat) (c : Char) (l : List Char) : List Char :=
  if n ≤ l.length then l else List.replicate (n - l.length) c ++ l

/-- Per-entry proof normalization in buildClaimTx (claim.js lines
30-36): strip an optional "0x", pad to 64 characters with '0', and
re-prefix "0x". -/
def normalizeProofEntry (l : List Char) : List Char :=
  '0' :: 'x' :: padStart 64 '0' (stripHex0x l)

/-- String-level wrapper of `normalizeProofEntry`. -/
def normalizeProofEntryS (s : String) : String :=
  String.mk (normalizeProofEntry s.data)

/-- Hexadecimal digit test, used only to state claims about
already-normalized proof entries. -/
def isHexChar (c : Char) : Bool :=
  c.isDigit || ('a' ≤ c && c ≤ 'f') || ('A' ≤ c && c ≤ 'F')

/-- One row of wallet.csv: columns `add` (address), `pk` (private key)
and optional `proxy` (claim.js lines 167-168). -/
structure WalletData where
  add : String
  pk : String
  proxy : Option String
deriving DecidableEq, Repr

/-- Status column of a claim-variant result row. -/
inductive Status where
  | success
  | failed
  | no_eligibility
  | error
deriving DecidableEq, Repr

/-- A record pushed onto `this.results` by claim.js. -/
structure ClaimOutcome where
  address : String
  amount : String
  status : Status
deriving DecidableEq, Repr

/-- A record pushed onto `this.results` by check.js (no status column). -/
structure CheckOutcome where
  address : String
  amount : String
deriving DecidableEq, Repr

/-- The populated `claim(uint256 fullAmount, bytes32[] proof)` call:
the parsed amount and the normalized proof entries
(claim.js lines 38-41). -/
structure TxData where
  amount : Nat
  proof : List String
deriving DecidableEq, Repr

/-- The transaction object passed to `wallet.sendTransaction`: the
populated call data plus the fixed gas fields (claim.js lines 51-56). -/
structure Tx where
  payload : TxData
  gasLimit : Nat
  gasPrice : Nat
  txType : Nat
deriving DecidableEq, Repr

/-- A transaction receipt as far as the code reads it: its `status`. -/
structure Receipt where
  status : Nat
deriving DecidableEq, Repr

/-- ethers.parseUnits on a decimal numeral `whole.frac` with the "gwei"
unit (9 decimals): `whole·10⁹ + frac·10^(9-fracLen)` wei. -/
def parseUnitsGwei (whole frac fracLen : Nat) : Nat :=
  whole * 10 ^ 9 + frac * 10 ^ (9 - fracLen)

/-- The fixed gas price `ethers.parseUnits("1.02", "gwei")`
(claim.js line 54). -/
def claimGasPrice : Nat := parseUnitsGwei 1 2 2

/-- Merge of the fixed fields over the populated transaction data:
`{...txData, gasLimit: 160000, gasPrice: parseUnits("1.02","gwei"),
type: 0}` (claim.js lines 51-56). -/
def mkClaimTx (t : TxData) : Tx := ⟨t, 160000, claimGasPrice, 0⟩

/-- Observable behaviour of one sendTransaction call: the transactions
handed to the wallet and the boolean result (receipt status comparison)
or thrown error. -/
structure SendRun where
  submitted : List Tx
  result : Except Unit Bool

/-- sendTransaction (claim.js lines 49-72): submit the populated data
with the fixed gas fields, await the receipt, return
`receipt.status === 1`; a throw from submission or confirmation is
logged and rethrown. -/
def sendTransaction (submit : Tx → Except Unit Receipt) (t : TxData) : SendRun :=
  let tx := mkClaimTx t
  match submit tx with
  | Except.ok r => ⟨[tx], Except.ok (r.status == 1)⟩
  | Except.error e => ⟨[tx], Except.error e⟩

/-- External collaborators of one wallet's pipeline.  `ctorOk` models
the pre-try construction `new RequestManager(proxy)` and
`new ethers.Wallet(pk[, provider])` (claim.js lines 167-168, check.js
lines 109-110), which throws on an invalid private key; `sign` is
`wallet.signMessage`; `attempt` feeds the retry loop; `parseProofJson`
is `JSON.parse` on the proof payload (an Except also covers a payload
that is not an array of strings, which would make the later `.map`
throw); `populateOk` tells whether `populateTransaction` resolves;
`submit` is `wallet.sendTransaction` followed by `txResponse.wait()`. -/
structure WalletEnv where
  ctorOk : Bool
  sign : Except Unit String
  attempt : Nat → Except AttemptErr Response
  parseProofJson : String → Except Unit (List String)
  populateOk : Bool
  submit : Tx → Except Unit Receipt

/-- The evaluation of `JSON.parse(response.data.proof)` at the call
site (claim.js line 193): `JSON.parse(undefined)` throws. -/
def parseProofStep (env : WalletEnv) : Option String → Except Unit (List String)
  | none => Except.error ()
  | some s => env.parseProofJson s

/-- buildClaimTx (claim.js lines 20-46) for a given amount string and
already-JSON-parsed proof list: `BigInt(amount)` throws on a
non-numeral, each proof entry is normalized, and the populated call is
returned; any throw inside is logged and rethrown. -/
def buildClaimTx (env : WalletEnv) (amount : String) (proof : List String) :
    Except Unit TxData :=
  match parseBigNat amount with
  | none => Except.error ()
  | some n =>
    if env.populateOk then
      Except.ok ⟨n, proof.map normalizeProofEntryS⟩
    else Except.error ()

/-- Evaluation of the eligibility guard
`!response?.data || !response.data.amount || response.data.amount === '0'`
(claim.js line 177): `some (a, proof)` exactly when the guard is false,
i.e. `data` is present and its `amount` is a truthy string other than
"0"; the proof field is carried along for the build step. -/
def eligClaimData (resp : Response) : Option (String × Option String) :=
  match resp.data with
  | none => none
  | some d =>
    match d.amount with
    | none => none
    | some a => if a = "" ∨ a = "0" then none else some (a, d.proof)

/-- Observable behaviour of one claim-variant processWallet call:
records pushed onto `this.results`, increments of successCount and
failCount, the amount added to `this.totalAmount`, the transactions
submitted, and whether an exception escaped the call. -/
structure ClaimRun where
  appended : List ClaimOutcome
  dSucc : Nat
  dFail : Nat
  dAmount : Nat
  submitted : List Tx
  threwOut : Bool
deriving Repr

/-- The catch-block result of claim.js lines 211-219: one record with
amount "0" and status error, and failCount incremented. -/
def errRun (w : WalletData) : ClaimRun :=
  ⟨[⟨w.add, "0", Status.error⟩], 0, 1, 0, [], false⟩

/-- processWallet of claim.js (lines 166-220).  The constructor calls
precede the try block, so their throw escapes the function; every other
failure is caught by the catch block, which records an error outcome.
On a passed eligibility guard the proof is JSON-parsed, the transaction
is built and submitted, and the outcome recorded from the receipt
status; the result row carries the formatted amount
(claim.js lines 198-209). -/
def processWalletClaim (env : WalletEnv) (w : WalletData) : ClaimRun :=
  if env.ctorOk then
    match env.sign with
    | Except.error _ => errRun w
    | Except.ok _ =>
      match (checkEligibilityWithRetry env.attempt).result with
      | Except.error _ => errRun w
      | Except.ok resp =>
        match eligClaimData resp with
        | none => ⟨[⟨w.add, "0", Status.no_eligibility⟩], 0, 1, 0, [], false⟩
        | some (a, proofField) =>
          match parseProofStep env proofField with
          | Except.error _ => errRun w
          | Except.ok proofList =>
            match buildClaimTx env a proofList with
            | Except.error _ => errRun w
            | Except.ok txData =>
              let sr := sendTransaction env.submit txData
              match sr.result with
              | Except.error _ => ⟨[⟨w.add, "0", Status.error⟩], 0, 1, 0, sr.submitted, false⟩
              | Except.ok ok =>
                ⟨[⟨w.add, formatTokenAmount (some a),
                    if ok then Status.success else Status.failed⟩],
                  if ok then 1 else 0, if ok then 0 else 1,
                  (parseBigNat a).getD 0, sr.submitted, false⟩
  else ⟨[], 0, 0, 0, [], true⟩

/-- Observable behaviour of one check-variant processWallet call. -/
structure CheckRun where
  appended : List CheckOutcome
  dSucc : Nat
  dFail : Nat
  dAmount : Nat
  threwOut : Bool
deriving Repr

/-- processWallet of check.js (lines 108-151).  When `response.data`
exists, a row with the formatted amount is pushed FIRST; then, if the
amount is truthy and not "0", `BigInt(amount)` is added to the total —
and if that BigInt call throws, the outer catch pushes a second row for
the same wallet; otherwise successCount is incremented.  A missing
`data` and any caught throw push one "0" row with failCount
incremented. -/
def processWalletCheck (env : WalletEnv) (w : WalletData) : CheckRun :=
  if env.ctorOk then
    match env.sign with
    | Except.error _ => ⟨[⟨w.add, "0"⟩], 0, 1, 0, false⟩
    | Except.ok _ =>
      match (checkEligibilityWithRetry env.attempt).result with
      | Except.error _ => ⟨[⟨w.add, "0"⟩], 0, 1, 0, false⟩
      | Except.ok resp =>
        match resp.data with
        | none => ⟨[⟨w.add, "0"⟩], 0, 1, 0, false⟩
        | some d =>
          let pushed : CheckOutcome := ⟨w.add, formatTokenAmount d.amount⟩
          match d.amount with
          | none => ⟨[pushed], 1, 0, 0, false⟩
          | some a =>
            if a = "" ∨ a = "0" then ⟨[pushed], 1, 0, 0, false⟩
            else
              match parseBigNat a with
              | some n => ⟨[pushed], 1, 0, n, false⟩
              | none => ⟨[pushed, ⟨w.add, "0"⟩], 0, 1, 0, false⟩
  else ⟨[], 0, 0, 0, true⟩

/-- A sample wallet row. -/
def wdA : WalletData := ⟨"0xA11CE", "a1b2c3", none⟩

/-- A code-0 response granting amount "5" with an empty proof array. -/
def respOkAmt : Response := ⟨0, some ⟨some "5", some "[]"⟩⟩

/-- A code-0 response whose amount is the zero value "0". -/
def respZero : Response := ⟨0, some ⟨some "0", none⟩⟩

/-- A code-0 response whose amount is not a numeral. -/
def respBadAmt : Response := ⟨0, some ⟨some "abc", none⟩⟩

/-- An environment in which every stage succeeds and the claim
transaction confirms with receipt status 1. -/
def envOk : WalletEnv :=
  ⟨true, Except.ok "sig", fun _ => Except.ok respOkAmt,
    fun _ => Except.ok [], true, fun _ => Except.ok ⟨1⟩⟩

/-- Like `envOk` but the pre-try wallet construction throws (invalid
private key). -/
def envCtorFail : WalletEnv :=
  ⟨false, Except.ok "sig", fun _ => Except.ok respOkAmt,
    fun _ => Except.ok [], true, fun _ => Except.ok ⟨1⟩⟩

/-- Like `envOk` but the signing step throws. -/
def envSignFail : WalletEnv :=
  ⟨true, Except.error (), fun _ => Except.ok respOkAmt,
    fun _ => Except.ok [], true, fun _ => Except.ok ⟨1⟩⟩

/-- An environment whose eligibility response carries amount "0". -/
def envZeroAmt : WalletEnv :=
  ⟨true, Except.ok "sig", fun _ => Except.ok respZero,
    fun _ => Except.ok [], true, fun _ => Except.ok ⟨1⟩⟩

/-- An environment whose eligibility response carries the non-numeral
amount "abc". -/
def envBadAmt : WalletEnv :=
  ⟨true, Except.ok "sig", fun _ => Except.ok respBadAmt,
    fun _ => Except.ok [], true, fun _ => Except.ok ⟨1⟩⟩

/-- State of one concurrency slot of processWallets: `ready` between
wallets (about to test `currentIndex < wallets.length`), `running i`
while `processWallet(wallets[i])` is pending, `done` once the recursion
chain has returned for good. -/
inductive SlotState where
  | ready
  | running (i : Nat)
  | done
deriving DecidableEq, Repr

/-- The scheduler state of processWallets (claim.js lines 236-293):
the shared `currentIndex` cursor, the slot states, and the log of
wallet indices whose processWallet call has completed, in completion
order. -/
structure PoolState where
  cursor : Nat
  slots : List SlotState
  taken : List Nat
deriving DecidableEq, Repr

/-- Cooperative small-step semantics of the pool over `N` wallets.
`take` is the synchronous prefix of `processOne`: the cursor test and
`wallets[currentIndex++]` happen before any await, so they form one
atomic step.  `finish` is the completion of `await this.processWallet`
(the wallet's records are appended then).  `exit` is a slot giving up
when the cursor is exhausted, covering both the early return and the
`finally` branch that does not recurse. -/
inductive PoolStep (N : Nat) : PoolState → PoolState → Prop
  | take (s : PoolState) (k : Nat)
      (h : s.slots[k]? = some SlotState.ready) (hc : s.cursor < N) :
      PoolStep N s ⟨s.cursor + 1, s.slots.set k (SlotState.running s.cursor), s.taken⟩
  | finish (s : PoolState) (k i : Nat)
      (h : s.slots[k]? = some (SlotState.running i)) :
      PoolStep N s ⟨s.cursor, s.slots.set k SlotState.ready, s.taken ++ [i]⟩
  | exit (s : PoolState) (k : Nat)
      (h : s.slots[k]? = some SlotState.ready) (hc : N ≤ s.cursor) :
      PoolStep N s ⟨s.cursor, s.slots.set k SlotState.done, s.taken⟩

/-- Initial pool state with `C` seeded slots (the launch loop of
claim.js lines 268-274 starts `min(concurrentLimit, wallets.length)`
chains; under `C ≤ N` that is `C`). -/
def poolInit (C : Nat) : PoolState := ⟨0, List.replicate C SlotState.ready, []⟩

/-- States a run of processWallets with `N` wallets and concurrency `C`
can reach. -/
def PoolReachable (N C : Nat) (s : PoolState) : Prop :=
  Relation.ReflTransGen (PoolStep N) (poolInit C) s

/-- Every slot's recursion chain has returned: the pool's
`Promise.all` has resolved. -/
def AllDone (s : PoolState) : Prop := ∀ t ∈ s.slots, t = SlotState.done

/-- Indices of wallets currently being processed. -/
def runningIndices (slots : List SlotState) : List Nat :=
  slots.filterMap fun t =>
    match t with
    | SlotState.running i => some i
    | _ => none

/-- The contents of `this.results` in a pool state: the records each
completed processWallet call appended, in completion order. -/
def poolRecords (envs : Nat → WalletEnv) (datas : Nat → WalletData)
    (s : PoolState) : List ClaimOutcome :=
  s.taken.flatMap fun i => (processWalletClaim (envs i) (datas i)).appended

/-- Invariant of the pool: the cursor never passes `N`; the completed
and in-flight indices together are exactly the consumed prefix of the
wallet list; and a slot only retires once the cursor is exhausted. -/
def PoolInv (N : Nat) (s : PoolState) : Prop :=
  s.cursor ≤ N
  ∧ (s.taken ++ runningIndices s.slots).Perm (List.range s.cursor)
  ∧ (SlotState.done ∈ s.slots → s.cursor = N)

/-- The terminal state of a one-wallet, one-slot run. -/
def poolS1 : PoolState := ⟨1, [SlotState.done], [0]⟩

/-- The loop returns the stored error untouched once the cursor has
reached maxRetries, whatever fuel remains. -/
theorem retryGo_stop (oracle : Nat → Except AttemptErr Response) (mr fuel rc : Nat)
    (le : Option RetryError) (h : mr ≤ rc) :
    retryGo oracle mr fuel rc le =
      ⟨Except.error (le.getD (RetryError.req (AttemptErr.http none))), 0, []⟩ := by
  cases fuel with
  | zero => rfl
  | succ f => simp [retryGo, Nat.not_lt.mpr h]

/-- A successful attempt (code 0) returns that response at once, with
one attempt issued and no wait. -/
theorem retryGo_succ_step (oracle : Nat → Except AttemptErr Response)
    (mr fuel rc : Nat) (le : Option RetryError) (resp : Response)
    (hrc : rc < mr) (hok : oracle rc = Except.ok resp) (hcode : resp.code = 0) :
    retryGo oracle mr (fuel + 1) rc le = ⟨Except.ok resp, 1, []⟩ := by
  simp [retryGo, hrc, hok, hcode]

/-- A failed attempt recurses with the incremented counter and its own
error stored, contributing one attempt and the wait `specWaitAfter`. -/
theorem retryGo_fail_step (oracle : Nat → Except AttemptErr Response)
    (mr fuel rc : Nat) (le : Option RetryError)
    (hrc : rc < mr) (hfail : isSuccess (oracle rc) = false) :
    retryGo oracle mr (fuel + 1) rc le =
      ⟨(retryGo oracle mr fuel (rc + 1) (some (errOf (oracle rc)))).result,
       (retryGo oracle mr fuel (rc + 1) (some (errOf (oracle rc)))).attempts + 1,
       specWaitAfter (oracle rc) (rc + 1) mr
         ++ (retryGo oracle mr fuel (rc + 1) (some (errOf (oracle rc)))).waits⟩ := by
  cases hor : oracle rc with
  | ok resp =>
    have hc : (resp.code == 0) = false := by
      simpa [isSuccess, hor] using hfail
    by_cases h2 : rc + 1 < mr
    · simp [retryGo, hrc, hor, hc, specWaitAfter, is429, errOf, h2]
    · simp [retryGo, hrc, hor, hc, specWaitAfter, is429, errOf, h2]
  | error e =>
    cases e with
    | http st =>
      cases h429 : (st == some 429) with
      | true => simp [retryGo, hrc, hor, h429, specWaitAfter, is429, errOf]
      | false =>
        by_cases h2 : rc + 1 < mr
        · simp [retryGo, hrc, hor, h429, specWaitAfter, is429, errOf, h2]
        · simp [retryGo, hrc, hor, h429, specWaitAfter, is429, errOf, h2]

/-- When every attempt from the cursor on fails, the loop performs the
remaining attempts, waits according to `specWaitAfter` after each, and
throws the error of the last attempt. -/
theorem retryGo_all_fail (oracle : Nat → Except AttemptErr Response) (mr : Nat) :
    ∀ fuel rc, ∀ le : Option RetryError, rc < mr → mr ≤ fuel + rc →
      (∀ j, rc ≤ j → j < mr → isSuccess (oracle j) = false) →
      retryGo oracle mr fuel rc le =
        ⟨Except.error (errOf (oracle (mr - 1))), mr - rc,
         (List.range' rc (mr - rc)).flatMap fun j => specWaitAfter (oracle j) (j + 1) mr⟩ := by
  intro fuel
  induction fuel with
  | zero => intro rc le h1 h2 _; omega
  | succ f ih =>
    intro rc le hrc hle hfail
    rw [retryGo_fail_step oracle mr f rc le hrc (hfail rc (Nat.le_refl rc) hrc)]
    by_cases h2 : rc + 1 < mr
    · rw [ih (rc + 1) (some (errOf (oracle rc))) h2 (by omega)
        (fun j hj1 hj2 => hfail j (by omega) hj2)]
      have hr : mr - rc = (mr - (rc + 1)) + 1 := by omega
      have hrange : List.range' rc (mr - rc) = rc :: List.range' (rc + 1) (mr - (rc + 1)) := by
        rw [hr, List.range'_succ]
      simp only [hrange, List.flatMap_cons]
      refine congrArg₂ (RetryTrace.mk _) (by omega) rfl
    · have hmr : mr = rc + 1 := by omega
      rw [retryGo_stop oracle mr f (rc + 1) (some (errOf (oracle rc))) (by omega)]
      have hsub : mr - rc = 1 := by omega
      have hm1 : mr - 1 = rc := by omega
      simp only [hsub, hm1, List.range'_one, Option.getD_some]
      simp [List.flatMap_cons]
  
/-- When the attempts before `k` fail and attempt `k` succeeds, the
loop returns attempt k's response after `k + 1 - rc` attempts, waiting
according to `specWaitAfter` after each failure. -/
theorem retryGo_first_succ (oracle : Nat → Except AttemptErr Response) (mr : Nat) :
    ∀ fuel rc, ∀ le : Option RetryError, ∀ (k : Nat) (resp : Response),
      rc ≤ k → k < mr → mr ≤ fuel + rc →
      (∀ j, rc ≤ j → j < k → isSuccess (oracle j) = false) →
      oracle k = Except.ok resp → resp.code = 0 →
      retryGo oracle mr fuel rc le =
        ⟨Except.ok resp, k + 1 - rc,
         (List.range' rc (k - rc)).flatMap fun j => specWaitAfter (oracle j) (j + 1) mr⟩ := by
  intro fuel
  induction fuel with
  | zero => intro rc le k resp h1 h2 h3 _ _ _; omega
  | succ f ih =>
    intro rc le k resp hrk hkm hle hfail hok hcode
    rcases Nat.eq_or_lt_of_le hrk with heq | hlt
    · subst heq
      rw [retryGo_succ_step oracle mr f rc le resp hkm hok hcode]
      simp
    · rw [retryGo_fail_step oracle mr f rc le (by omega) (hfail rc (Nat.le_refl rc) hlt)]
      rw [ih (rc + 1) (some (errOf (oracle rc))) k resp (by omega) hkm (by omega)
        (fun j hj1 hj2 => hfail j (by omega) hj2) hok hcode]
      have hr : k - rc = (k - (rc + 1)) + 1 := by omega
      have hrange : List.range' rc (k - rc) = rc :: List.range' (rc + 1) (k - (rc + 1)) := by
        rw [hr, List.range'_succ]
      simp only [hrange, List.flatMap_cons]
      refine congrArg₂ (RetryTrace.mk _) (by omega) rfl

/-- The loop never issues more attempts than remain in the budget. -/
theorem retryGo_attempts_le (oracle : Nat → Except AttemptErr Response) (mr : Nat) :
    ∀ fuel rc, ∀ le : Option RetryError,
      (retryGo oracle mr fuel rc le).attempts ≤ mr - rc := by
  intro fuel
  induction fuel with
  | zero => intro rc le; simp [retryGo]
  | succ f ih =>
    intro rc le
    by_cases hrc : rc < mr
    · cases hor : oracle rc with
      | ok resp =>
        cases hc : (resp.code == 0) with
        | true =>
          have hcode : resp.code = 0 := by simpa using hc
          rw [retryGo_succ_step oracle mr f rc le resp hrc hor hcode]
          show 1 ≤ mr - rc
          omega
        | false =>
          have hfail : isSuccess (oracle rc) = false := by simp [isSuccess, hor, hc]
          rw [retryGo_fail_step oracle mr f rc le hrc hfail]
          have hrest := ih (rc + 1) (some (errOf (oracle rc)))
          show (retryGo oracle mr f (rc + 1) (some (errOf (oracle rc)))).attempts + 1 ≤ mr - rc
          omega
      | error e =>
        have hfail : isSuccess (oracle rc) = false := by simp [isSuccess, hor]
        rw [retryGo_fail_step oracle mr f rc le hrc hfail]
        have hrest := ih (rc + 1) (some (errOf (oracle rc)))
        show (retryGo oracle mr f (rc + 1) (some (errOf (oracle rc)))).attempts + 1 ≤ mr - rc
        omega
    · rw [retryGo_stop oracle mr (f + 1) rc le (by omega)]
      simp

/-- The loop only ever returns a response whose code is 0. -/
theorem retryGo_ok_code (oracle : Nat → Except AttemptErr Response) (mr : Nat) :
    ∀ fuel rc, ∀ le : Option RetryError, ∀ resp : Response,
      (retryGo oracle mr fuel rc le).result = Except.ok resp → resp.code = 0 := by
  intro fuel
  induction fuel with
  | zero => intro rc le resp h; simp [retryGo] at h
  | succ f ih =>
    intro rc le resp h
    by_cases hrc : rc < mr
    · cases hor : oracle rc with
      | ok resp2 =>
        cases hc : (resp2.code == 0) with
        | true =>
          have hcode : resp2.code = 0 := by simpa using hc
          rw [retryGo_succ_step oracle mr f rc le resp2 hrc hor hcode] at h
          cases h
          exact hcode
        | false =>
          have hfail : isSuccess (oracle rc) = false := by simp [isSuccess, hor, hc]
          rw [retryGo_fail_step oracle mr f rc le hrc hfail] at h
          have h2 : (retryGo oracle mr f (rc + 1) (some (errOf (oracle rc)))).result
              = Except.ok resp := h
          exact ih (rc + 1) (some (errOf (oracle rc))) resp h2
      | error e =>
        have hfail : isSuccess (oracle rc) = false := by simp [isSuccess, hor]
        rw [retryGo_fail_step oracle mr f rc le hrc hfail] at h
        have h2 : (retryGo oracle mr f (rc + 1) (some (errOf (oracle rc)))).result
            = Except.ok resp := h
        exact ih (rc + 1) (some (errOf (oracle rc))) resp h2
    · rw [retryGo_stop oracle mr (f + 1) rc le (by omega)] at h
      simp at h

/-- C2: checkEligibilityWithRetry makes at most 5 attempts; it returns
the first response whose code field equals 0 (any other code counting
as a retryable failure, not success); if all 5 attempts fail it throws
the error of the 5th attempt and performs no sixth attempt; and it
never returns a response whose code is non-zero. -/
theorem c2_retry_controller (oracle : Nat → Except AttemptErr Response) :
    (checkEligibilityWithRetry oracle).attempts ≤ 5
    ∧ (∀ (k : Nat) (resp : Response), k < 5 →
        (∀ j, j < k → isSuccess (oracle j) = false) →
        oracle k = Except.ok resp → resp.code = 0 →
        (checkEligibilityWithRetry oracle).result = Except.ok resp
        ∧ (checkEligibilityWithRetry oracle).attempts = k + 1)
    ∧ ((∀ j, j < 5 → isSuccess (oracle j) = false) →
        (checkEligibilityWithRetry oracle).result = Except.error (errOf (oracle 4))
        ∧ (checkEligibilityWithRetry oracle).attempts = 5)
    ∧ (∀ resp : Response,
        (checkEligibilityWithRetry oracle).result = Except.ok resp → resp.code = 0) := by
  refine ⟨?_, ?_, ?_, ?_⟩
  · simpa using retryGo_attempts_le oracle 5 5 0 none
  · intro k resp hk hfail hok hcode
    rw [checkEligibilityWithRetry,
      retryGo_first_succ oracle 5 5 0 none k resp (Nat.zero_le k) hk (by omega)
        (fun j _ hj => hfail j hj) hok hcode]
    exact ⟨rfl, by simp⟩
  · intro hfail
    rw [checkEligibilityWithRetry,
      retryGo_all_fail oracle 5 5 0 none (by omega) (by omega)
        (fun j _ hj => hfail j hj)]
    exact ⟨rfl, rfl⟩
  · intro resp h
    exact retryGo_ok_code oracle 5 5 0 none resp h

/-- Witness for C2: under `oracleThird` (bad code, then network error,
then success) the controller returns the third attempt's response after
exactly 3 attempts. -/
theorem c2_witness :
    (checkEligibilityWithRetry oracleThird).result = Except.ok respBare
    ∧ (checkEligibilityWithRetry oracleThird).attempts = 3 :=
  (c2_retry_controller oracleThird).2.1 2 respBare (by decide)
    (by decide) rfl rfl

/-- Counterexample to C3: five consecutive HTTP 429 failures produce
FIVE waits — 7000, 9000, 11000, 13000 and 15000 ms — so a wait of
`5000 + 5*2000` ms IS inserted after the final (5th) attempt, before
the error propagates, contradicting the claim that no wait follows the
exhausted final attempt. -/
theorem c3_counterexample :
    (checkEligibilityWithRetry oracle429).attempts = 5
    ∧ (checkEligibilityWithRetry oracle429).waits = [7000, 9000, 11000, 13000, 15000] :=
  ⟨rfl, rfl⟩

/-- C3 as amended: after failed attempt k (k starting at 1) the wait is
exactly `5000 + k*2000` ms for an HTTP 429 failure and `k*1000` ms for
any other failure while further attempts remain; after the final (5th)
failed attempt no wait is inserted when the failure is not a 429, but a
final 429 failure still waits `5000 + 5*2000` ms before the error
propagates. -/
theorem c3_backoff (oracle : Nat → Except AttemptErr Response) :
    (∀ (k : Nat) (resp : Response), k < 5 →
        (∀ j, j < k → isSuccess (oracle j) = false) →
        oracle k = Except.ok resp → resp.code = 0 →
        (checkEligibilityWithRetry oracle).waits
          = (List.range k).flatMap fun j => specWaitAfter (oracle j) (j + 1) 5)
    ∧ ((∀ j, j < 5 → isSuccess (oracle j) = false) →
        (checkEligibilityWithRetry oracle).waits
          = (List.range 5).flatMap fun j => specWaitAfter (oracle j) (j + 1) 5)
    ∧ (∀ (r : Except AttemptErr Response) (k : Nat), is429 r = true →
        specWaitAfter r k 5 = [5000 + k * 2000])
    ∧ (∀ (r : Except AttemptErr Response) (k : Nat), is429 r = false → k < 5 →
        specWaitAfter r k 5 = [k * 1000])
    ∧ (∀ r : Except AttemptErr Response, is429 r = false → specWaitAfter r 5 5 = [])
    ∧ (∀ r : Except AttemptErr Response, is429 r = true →
        specWaitAfter r 5 5 = [5000 + 5 * 2000]) := by
  refine ⟨?_, ?_, ?_, ?_, ?_, ?_⟩
  · intro k resp hk hfail hok hcode
    rw [checkEligibilityWithRetry,
      retryGo_first_succ oracle 5 5 0 none k resp (Nat.zero_le k) hk (by omega)
        (fun j _ hj => hfail j hj) hok hcode,
      List.range_eq_range' k]
    simp
  · intro hfail
    rw [checkEligibilityWithRetry,
      retryGo_all_fail oracle 5 5 0 none (by omega) (by omega)
        (fun j _ hj => hfail j hj),
      List.range_eq_range' 5]
  · intro r k h; simp [specWaitAfter, h]
  · intro r k h hk; simp [specWaitAfter, h, hk]
  · intro r h; simp [specWaitAfter, h]
  · intro r h; simp [specWaitAfter, h]

/-- Witness for C3 (amended): under `oracle429` the wait list is
exactly the specWaitAfter waits of the five failed attempts. -/
theorem c3_witness :
    (checkEligibilityWithRetry oracle429).waits
      = (List.range 5).flatMap fun j => specWaitAfter (oracle429 j) (j + 1) 5 :=
  (c3_backoff oracle429).2.1 (by decide)

/-- Length of a JS padStart: the target length, or the original length
when that is already at least the target. -/
theorem padStart_length (n : Nat) (c : Char) (l : List Char) :
    (padStart n c l).length = max n l.length := by
  by_cases h : n ≤ l.length
  · simp only [padStart, if_pos h]
    omega
  · simp only [padStart, if_neg h, List.length_append, List.length_replicate]
    omega

/-- A string already at the target length is returned unchanged by
padStart. -/
theorem padStart_of_le (n : Nat) (c : Char) (l : List Char) (h : n ≤ l.length) :
    padStart n c l = l := by
  simp [padStart, h]

/-- Counterexample to C6: the input string "0" does NOT format to "0".
Being a non-empty string, "0" is truthy in JS, so it passes the
`if (!amount)` guard and is scaled by 18 decimals, printing as "0.0". -/
theorem c6_counterexample :
    formatTokenAmount (some "0") ≠ "0" ∧ formatTokenAmount (some "0") = "0.0" := by
  exact ⟨by decide, rfl⟩

/-- C6 as amended: formatTokenAmount applies 18-decimal scaling — the
base-unit string "1000000000000000000" formats to "1.0" and an absent
(null/undefined) input formats to "0" — but the string "0" is truthy,
bypasses the falsy guard, and formats to "0.0". -/
theorem c6_formatting :
    formatTokenAmount (some "1000000000000000000") = "1.0"
    ∧ formatTokenAmount none = "0"
    ∧ formatTokenAmount (some "0") = "0.0" :=
  ⟨rfl, rfl, rfl⟩

/-- C7: buildClaimTx's per-entry normalization strips an optional "0x"
prefix, left-pads the rest with '0' towards 64 characters and
re-prefixes "0x"; whenever the stripped part is at most 64 characters
long the result is exactly 66 characters (0x plus 64 hex characters);
and the entry "abc" maps to "0x", 61 zeros and "abc". -/
theorem c7_proof_normalization :
    (∀ l : List Char, normalizeProofEntry l
        = '0' :: 'x' :: (List.replicate (64 - (stripHex0x l).length) '0' ++ stripHex0x l))
    ∧ (∀ l : List Char, (stripHex0x l).length ≤ 64 → (normalizeProofEntry l).length = 66)
    ∧ normalizeProofEntryS "abc" = "0x" ++ String.mk (List.replicate 61 '0') ++ "abc" := by
  refine ⟨?_, ?_, ?_⟩
  · intro l
    by_cases h : 64 ≤ (stripHex0x l).length
    · simp [normalizeProofEntry, padStart, h, Nat.sub_eq_zero_of_le h]
    · simp [normalizeProofEntry, padStart, h]
  · intro l h
    simp [normalizeProofEntry, padStart_length]
    omega
  · rfl

/-- Witness for C7: the normalization of "abc" has 66 characters. -/
theorem c7_witness : (normalizeProofEntry ('a' :: 'b' :: 'c' :: [])).length = 66 :=
  c7_proof_normalization.2.1 ('a' :: 'b' :: 'c' :: []) (by decide)

/-- C10: the proof-entry normalization is idempotent on every entry
whose stripped part is at most 64 characters, and an already-normalized
entry — "0x" followed by exactly 64 hex characters — is mapped to
itself. -/
theorem c10_normalize_idempotent :
    (∀ l : List Char, (stripHex0x l).length ≤ 64 →
        normalizeProofEntry (normalizeProofEntry l) = normalizeProofEntry l)
    ∧ (∀ r : List Char, r.length = 64 → (∀ c ∈ r, isHexChar c = true) →
        normalizeProofEntry ('0' :: 'x' :: r) = '0' :: 'x' :: r) := by
  constructor
  · intro l h
    have hlen : (padStart 64 '0' (stripHex0x l)).length = 64 := by
      rw [padStart_length]
      omega
    have h1 : stripHex0x ('0' :: 'x' :: padStart 64 '0' (stripHex0x l))
        = padStart 64 '0' (stripHex0x l) := rfl
    show '0' :: 'x' ::
        padStart 64 '0' (stripHex0x ('0' :: 'x' :: padStart 64 '0' (stripHex0x l)))
      = '0' :: 'x' :: padStart 64 '0' (stripHex0x l)
    rw [h1, padStart_of_le 64 '0' _ (by omega)]
  · intro r h _hx
    have h1 : stripHex0x ('0' :: 'x' :: r) = r := rfl
    show '0' :: 'x' :: padStart 64 '0' (stripHex0x ('0' :: 'x' :: r)) = '0' :: 'x' :: r
    rw [h1, padStart_of_le 64 '0' r (by omega)]

/-- Witness for C10: idempotence at "abc" and identity at "0x" followed
by 64 'a' characters. -/
theorem c10_witness :
    normalizeProofEntry (normalizeProofEntry ('a' :: 'b' :: 'c' :: []))
      = normalizeProofEntry ('a' :: 'b' :: 'c' :: [])
    ∧ normalizeProofEntry ('0' :: 'x' :: List.replicate 64 'a')
      = '0' :: 'x' :: List.replicate 64 'a' :=
  ⟨c10_normalize_idempotent.1 ('a' :: 'b' :: 'c' :: []) (by decide),
   c10_normalize_idempotent.2 (List.replicate 64 'a') (by decide) (by decide)⟩

/-- A run whose pre-try constructors throw records nothing and lets the
exception escape. -/
theorem pwc_ctor_fail (env : WalletEnv) (w : WalletData) (h : env.ctorOk = false) :
    processWalletClaim env w = ⟨[], 0, 0, 0, [], true⟩ := by
  simp [processWalletClaim, h]

/-- A failing signature is caught and recorded as an error outcome. -/
theorem pwc_sign_fail (env : WalletEnv) (w : WalletData) (e : Unit)
    (hc : env.ctorOk = true) (hs : env.sign = Except.error e) :
    processWalletClaim env w = errRun w := by
  simp [processWalletClaim, hc, hs]

/-- An exhausted retry loop is caught and recorded as an error
outcome. -/
theorem pwc_retry_fail (env : WalletEnv) (w : WalletData) (sig : String) (e : RetryError)
    (hc : env.ctorOk = true) (hs : env.sign = Except.ok sig)
    (hr : (checkEligibilityWithRetry env.attempt).result = Except.error e) :
    processWalletClaim env w = errRun w := by
  simp [processWalletClaim, hc, hs, hr]

/-- A response failing the eligibility guard yields the
no_eligibility outcome with amount "0" and no transaction. -/
theorem pwc_no_elig (env : WalletEnv) (w : WalletData) (sig : String) (resp : Response)
    (hc : env.ctorOk = true) (hs : env.sign = Except.ok sig)
    (hr : (checkEligibilityWithRetry env.attempt).result = Except.ok resp)
    (he : eligClaimData resp = none) :
    processWalletClaim env w
      = ⟨[⟨w.add, "0", Status.no_eligibility⟩], 0, 1, 0, [], false⟩ := by
  simp [processWalletClaim, hc, hs, hr, he]

/-- A throwing JSON.parse of the proof is caught and recorded as an
error outcome. -/
theorem pwc_parse_fail (env : WalletEnv) (w : WalletData) (sig : String) (resp : Response)
    (a : String) (pf : Option String) (e : Unit)
    (hc : env.ctorOk = true) (hs : env.sign = Except.ok sig)
    (hr : (checkEligibilityWithRetry env.attempt).result = Except.ok resp)
    (he : eligClaimData resp = some (a, pf))
    (hp : parseProofStep env pf = Except.error e) :
    processWalletClaim env w = errRun w := by
  simp [processWalletClaim, hc, hs, hr, he, hp]

/-- A throwing buildClaimTx is caught and recorded as an error
outcome. -/
theorem pwc_build_fail (env : WalletEnv) (w : WalletData) (sig : String) (resp : Response)
    (a : String) (pf : Option String) (pl : List String) (e : Unit)
    (hc : env.ctorOk = true) (hs : env.sign = Except.ok sig)
    (hr : (checkEligibilityWithRetry env.attempt).result = Except.ok resp)
    (he : eligClaimData resp = some (a, pf))
    (hp : parseProofStep env pf = Except.ok pl)
    (hb : buildClaimTx env a pl = Except.error e) :
    processWalletClaim env w = errRun w := by
  simp [processWalletClaim, hc, hs, hr, he, hp, hb]

/-- A throwing submission or confirmation is caught and recorded as an
error outcome; the transaction had been handed to the wallet with the
fixed gas fields. -/
theorem pwc_send_err (env : WalletEnv) (w : WalletData) (sig : String) (resp : Response)
    (a : String) (pf : Option String) (pl : List String) (td : TxData) (e : Unit)
    (hc : env.ctorOk = true) (hs : env.sign = Except.ok sig)
    (hr : (checkEligibilityWithRetry env.attempt).result = Except.ok resp)
    (he : eligClaimData resp = some (a, pf))
    (hp : parseProofStep env pf = Except.ok pl)
    (hb : buildClaimTx env a pl = Except.ok td)
    (hsub : env.submit (mkClaimTx td) = Except.error e) :
    processWalletClaim env w
      = ⟨[⟨w.add, "0", Status.error⟩], 0, 1, 0, [mkClaimTx td], false⟩ := by
  simp [processWalletClaim, hc, hs, hr, he, hp, hb, sendTransaction, hsub]

/-- A confirmed submission records success or failed according to the
receipt status. -/
theorem pwc_send_ok (env : WalletEnv) (w : WalletData) (sig : String) (resp : Response)
    (a : String) (pf : Option String) (pl : List String) (td : TxData) (r : Receipt)
    (hc : env.ctorOk = true) (hs : env.sign = Except.ok sig)
    (hr : (checkEligibilityWithRetry env.attempt).result = Except.ok resp)
    (he : eligClaimData resp = some (a, pf))
    (hp : parseProofStep env pf = Except.ok pl)
    (hb : buildClaimTx env a pl = Except.ok td)
    (hsub : env.submit (mkClaimTx td) = Except.ok r) :
    processWalletClaim env w
      = ⟨[⟨w.add, formatTokenAmount (some a),
            if r.status == 1 then Status.success else Status.failed⟩],
          if r.status == 1 then 1 else 0, if r.status == 1 then 0 else 1,
          (parseBigNat a).getD 0, [mkClaimTx td], false⟩ := by
  simp [processWalletClaim, hc, hs, hr, he, hp, hb, sendTransaction, hsub]

/-- Shape of every claim-variant run whose constructors succeed: no
exception escapes, exactly one counter is incremented and exactly one
record is appended. -/
theorem pwc_shape (env : WalletEnv) (w : WalletData) (hc : env.ctorOk = true) :
    (processWalletClaim env w).threwOut = false
    ∧ (processWalletClaim env w).dSucc + (processWalletClaim env w).dFail = 1
    ∧ ∃ o, (processWalletClaim env w).appended = [o] := by
  cases hs : env.sign with
  | error e =>
    rw [pwc_sign_fail env w e hc hs]
    exact ⟨rfl, rfl, _, rfl⟩
  | ok sig =>
    cases hr : (checkEligibilityWithRetry env.attempt).result with
    | error e =>
      rw [pwc_retry_fail env w sig e hc hs hr]
      exact ⟨rfl, rfl, _, rfl⟩
    | ok resp =>
      cases he : eligClaimData resp with
      | none =>
        rw [pwc_no_elig env w sig resp hc hs hr he]
        exact ⟨rfl, rfl, _, rfl⟩
      | some apf =>
        obtain ⟨a, pf⟩ := apf
        cases hp : parseProofStep env pf with
        | error e =>
          rw [pwc_parse_fail env w sig resp a pf e hc hs hr he hp]
          exact ⟨rfl, rfl, _, rfl⟩
        | ok pl =>
          cases hb : buildClaimTx env a pl with
          | error e =>
            rw [pwc_build_fail env w sig resp a pf pl e hc hs hr he hp hb]
            exact ⟨rfl, rfl, _, rfl⟩
          | ok td =>
            cases hsub : env.submit (mkClaimTx td) with
            | error e =>
              rw [pwc_send_err env w sig resp a pf pl td e hc hs hr he hp hb hsub]
              exact ⟨rfl, rfl, _, rfl⟩
            | ok r =>
              rw [pwc_send_ok env w sig resp a pf pl td r hc hs hr he hp hb hsub]
              refine ⟨rfl, ?_, _, rfl⟩
              cases hb2 : r.status == 1 <;> simp [hb2]

/-- C4: once processWallet's pre-try constructors have succeeded, a
throw at any stage inside the try — signing, eligibility exhaustion,
proof parsing, transaction build, or submission/confirmation — is
caught locally and recorded as one outcome with status error and amount
"0", and no exception ever escapes processWallet (so it cannot abort
sibling pipelines or the pool; see the scheduler theorems). -/
theorem c4_error_containment (env : WalletEnv) (w : WalletData) (hc : env.ctorOk = true) :
    (processWalletClaim env w).threwOut = false
    ∧ (∃ o, (processWalletClaim env w).appended = [o])
    ∧ (∀ e : Unit, env.sign = Except.error e →
        (processWalletClaim env w).appended = [⟨w.add, "0", Status.error⟩])
    ∧ (∀ e : RetryError,
        (checkEligibilityWithRetry env.attempt).result = Except.error e →
        (processWalletClaim env w).appended = [⟨w.add, "0", Status.error⟩])
    ∧ (∀ (resp : Response) (a : String) (pf : Option String),
        (checkEligibilityWithRetry env.attempt).result = Except.ok resp →
        eligClaimData resp = some (a, pf) →
        (∀ e : Unit, parseProofStep env pf = Except.error e →
          (processWalletClaim env w).appended = [⟨w.add, "0", Status.error⟩])
        ∧ (∀ (pl : List String) (e : Unit), parseProofStep env pf = Except.ok pl →
            buildClaimTx env a pl = Except.error e →
            (processWalletClaim env w).appended = [⟨w.add, "0", Status.error⟩])
        ∧ (∀ (pl : List String) (td : TxData) (e : Unit),
            parseProofStep env pf = Except.ok pl →
            buildClaimTx env a pl = Except.ok td →
            env.submit (mkClaimTx td) = Except.error e →
            (processWalletClaim env w).appended = [⟨w.add, "0", Status.error⟩])) := by
  refine ⟨(pwc_shape env w hc).1, (pwc_shape env w hc).2.2, ?_, ?_, ?_⟩
  · intro e hs
    rw [pwc_sign_fail env w e hc hs]
    rfl
  · intro e hr
    cases hs : env.sign with
    | error e2 => rw [pwc_sign_fail env w e2 hc hs]; rfl
    | ok sig => rw [pwc_retry_fail env w sig e hc hs hr]; rfl
  · intro resp a pf hr he
    refine ⟨?_, ?_, ?_⟩
    · intro e hp
      cases hs : env.sign with
      | error e2 => rw [pwc_sign_fail env w e2 hc hs]; rfl
      | ok sig => rw [pwc_parse_fail env w sig resp a pf e hc hs hr he hp]; rfl
    · intro pl e hp hb
      cases hs : env.sign with
      | error e2 => rw [pwc_sign_fail env w e2 hc hs]; rfl
      | ok sig => rw [pwc_build_fail env w sig resp a pf pl e hc hs hr he hp hb]; rfl
    · intro pl td e hp hb hsub
      cases hs : env.sign with
      | error e2 => rw [pwc_sign_fail env w e2 hc hs]; rfl
      | ok sig => rw [pwc_send_err env w sig resp a pf pl td e hc hs hr he hp hb hsub]

/-- Witness for C4: with a throwing signer, processWallet lets nothing
escape and records the error outcome with amount "0". -/
theorem c4_witness :
    (processWalletClaim envSignFail wdA).threwOut = false
    ∧ (processWalletClaim envSignFail wdA).appended = [⟨wdA.add, "0", Status.error⟩] := by
  have h := c4_error_containment envSignFail wdA rfl
  exact ⟨h.1, h.2.2.1 () rfl⟩

/-- C5: when the eligibility response carries a data object whose
amount is absent or the zero value "0", the claim variant records one
outcome with status no_eligibility and amount column "0" and submits no
transaction, while the check variant records one zero-amount row
("0" or "0.0") for the wallet and counts it as a success. -/
theorem c5_zero_amount (env : WalletEnv) (w : WalletData) (sig : String)
    (resp : Response) (d : EligData)
    (hc : env.ctorOk = true) (hs : env.sign = Except.ok sig)
    (hr : (checkEligibilityWithRetry env.attempt).result = Except.ok resp)
    (hd : resp.data = some d)
    (ha : d.amount = none ∨ d.amount = some "0") :
    (processWalletClaim env w).appended = [⟨w.add, "0", Status.no_eligibility⟩]
    ∧ (processWalletClaim env w).submitted = []
    ∧ (processWalletCheck env w).appended = [⟨w.add, formatTokenAmount d.amount⟩]
    ∧ (formatTokenAmount d.amount = "0" ∨ formatTokenAmount d.amount = "0.0")
    ∧ (processWalletCheck env w).dSucc = 1
    ∧ (processWalletCheck env w).dFail = 0 := by
  have he : eligClaimData resp = none := by
    rcases ha with h0 | h0 <;> simp [eligClaimData, hd, h0]
  refine ⟨?_, ?_, ?_, ?_, ?_, ?_⟩
  · rw [pwc_no_elig env w sig resp hc hs hr he]
  · rw [pwc_no_elig env w sig resp hc hs hr he]
  · rcases ha with h0 | h0 <;> simp [processWalletCheck, hc, hs, hr, hd, h0]
  · rcases ha with h0 | h0
    · rw [h0]; exact Or.inl rfl
    · rw [h0]; exact Or.inr rfl
  · rcases ha with h0 | h0 <;> simp [processWalletCheck, hc, hs, hr, hd, h0]
  · rcases ha with h0 | h0 <;> simp [processWalletCheck, hc, hs, hr, hd, h0]

/-- Witness for C5: a response with amount "0" yields the
no_eligibility outcome in the claim variant (no transaction submitted)
and a zero-amount success row in the check variant. -/
theorem c5_witness :
    (processWalletClaim envZeroAmt wdA).appended = [⟨wdA.add, "0", Status.no_eligibility⟩]
    ∧ (processWalletClaim envZeroAmt wdA).submitted = []
    ∧ (processWalletCheck envZeroAmt wdA).appended = [⟨wdA.add, formatTokenAmount (some "0")⟩]
    ∧ (processWalletCheck envZeroAmt wdA).dSucc = 1 := by
  have h := c5_zero_amount envZeroAmt wdA "sig" respZero ⟨some "0", none⟩
    rfl rfl rfl rfl (Or.inr rfl)
  exact ⟨h.1, h.2.1, h.2.2.1, h.2.2.2.2.1⟩

/-- C8: every transaction processWallet hands to the wallet carries gas
limit 160000, gas price parseUnits("1.02","gwei") = 1020000000 wei and
legacy type 0; and when the chain returns a receipt for it, the
wallet's recorded status is success exactly when the receipt status
is 1, failed otherwise. -/
theorem c8_transaction_params (env : WalletEnv) (w : WalletData) :
    (∀ tx ∈ (processWalletClaim env w).submitted,
        tx.gasLimit = 160000 ∧ tx.gasPrice = claimGasPrice ∧ tx.txType = 0)
    ∧ claimGasPrice = 1020000000
    ∧ (∀ tx ∈ (processWalletClaim env w).submitted, ∀ rcpt : Receipt,
        env.submit tx = Except.ok rcpt →
        ∃ a : String, (processWalletClaim env w).appended
          = [⟨w.add, formatTokenAmount (some a),
              if rcpt.status == 1 then Status.success else Status.failed⟩]) := by
  by_cases hc : env.ctorOk = true
  · cases hs : env.sign with
    | error e =>
      rw [pwc_sign_fail env w e hc hs]
      exact ⟨by simp [errRun], rfl, by simp [errRun]⟩
    | ok sig =>
      cases hr : (checkEligibilityWithRetry env.attempt).result with
      | error e =>
        rw [pwc_retry_fail env w sig e hc hs hr]
        exact ⟨by simp [errRun], rfl, by simp [errRun]⟩
      | ok resp =>
        cases he : eligClaimData resp with
        | none =>
          rw [pwc_no_elig env w sig resp hc hs hr he]
          exact ⟨by simp, rfl, by simp⟩
        | some apf =>
          obtain ⟨a, pf⟩ := apf
          cases hp : parseProofStep env pf with
          | error e =>
            rw [pwc_parse_fail env w sig resp a pf e hc hs hr he hp]
            exact ⟨by simp [errRun], rfl, by simp [errRun]⟩
          | ok pl =>
            cases hb : buildClaimTx env a pl with
            | error e =>
              rw [pwc_build_fail env w sig resp a pf pl e hc hs hr he hp hb]
              exact ⟨by simp [errRun], rfl, by simp [errRun]⟩
            | ok td =>
              cases hsub : env.submit (mkClaimTx td) with
              | error e =>
                rw [pwc_send_err env w sig resp a pf pl td e hc hs hr he hp hb hsub]
                refine ⟨?_, rfl, ?_⟩
                · intro tx htx
                  have htx2 : tx = mkClaimTx td := by simpa using htx
                  subst htx2
                  exact ⟨rfl, rfl, rfl⟩
                · intro tx htx rcpt hok
                  have htx2 : tx = mkClaimTx td := by simpa using htx
                  subst htx2
                  rw [hsub] at hok
                  exact absurd hok (by simp)
              | ok r =>
                rw [pwc_send_ok env w sig resp a pf pl td r hc hs hr he hp hb hsub]
                refine ⟨?_, rfl, ?_⟩
                · intro tx htx
                  have htx2 : tx = mkClaimTx td := by simpa using htx
                  subst htx2
                  exact ⟨rfl, rfl, rfl⟩
                · intro tx htx rcpt hok
                  have htx2 : tx = mkClaimTx td := by simpa using htx
                  subst htx2
                  rw [hsub] at hok
                  injection hok with hok2
                  subst hok2
                  exact ⟨a, rfl⟩
  · rw [pwc_ctor_fail env w (by simpa using hc)]
    exact ⟨by simp, rfl, by simp⟩

/-- Witness for C8: in the all-success environment, the submitted
transaction carries the fixed gas parameters and the outcome is a
success row. -/
theorem c8_witness :
    (∀ tx ∈ (processWalletClaim envOk wdA).submitted,
        tx.gasLimit = 160000 ∧ tx.gasPrice = claimGasPrice ∧ tx.txType = 0)
    ∧ ∃ a : String, (processWalletClaim envOk wdA).appended
        = [⟨wdA.add, formatTokenAmount (some a), Status.success⟩] := by
  have h := c8_transaction_params envOk wdA
  refine ⟨h.1, ?_⟩
  have h3 := h.2.2 (mkClaimTx ⟨5, []⟩) (by decide) ⟨1⟩ rfl
  simpa using h3

/-- Counterexample to C9: in the check variant a completed processWallet
call can append TWO rows while incrementing failCount once.  With an
eligibility amount "abc", the formatted row is pushed first, then
`BigInt("abc")` throws inside the totals update and the outer catch
pushes a second row, so successCount + failCount ends one short of the
results length. -/
theorem c9_counterexample :
    (processWalletCheck envBadAmt wdA).threwOut = false
    ∧ (processWalletCheck envBadAmt wdA).appended.length = 2
    ∧ (processWalletCheck envBadAmt wdA).dSucc + (processWalletCheck envBadAmt wdA).dFail = 1 :=
  ⟨rfl, rfl, rfl⟩

/-- C9 as amended: every completing claim-variant processWallet call
increments exactly one of successCount/failCount and appends exactly
one record; the check variant does the same provided every amount the
eligibility endpoint delivers parses as a BigInt — a non-numeral amount
instead yields two appended rows against one failCount increment. -/
theorem c9_counters_match_rows (env : WalletEnv) (w : WalletData) :
    ((processWalletClaim env w).threwOut = false →
      (processWalletClaim env w).dSucc + (processWalletClaim env w).dFail = 1
      ∧ (processWalletClaim env w).appended.length = 1)
    ∧ ((processWalletCheck env w).threwOut = false →
      (∀ (d : EligData) (a : String) (resp : Response),
          (checkEligibilityWithRetry env.attempt).result = Except.ok resp →
          resp.data = some d → d.amount = some a → (parseBigNat a).isSome = true) →
      (processWalletCheck env w).dSucc + (processWalletCheck env w).dFail = 1
      ∧ (processWalletCheck env w).appended.length = 1) := by
  constructor
  · intro hthrew
    by_cases hc : env.ctorOk = true
    · obtain ⟨h1, h2, o, h3⟩ := pwc_shape env w hc
      exact ⟨h2, by rw [h3]; rfl⟩
    · rw [pwc_ctor_fail env w (by simpa using hc)] at hthrew
      simp at hthrew
  · intro hthrew hwf
    by_cases hc : env.ctorOk = true
    · cases hs : env.sign with
      | error e => simp [processWalletCheck, hc, hs]
      | ok sig =>
        cases hr : (checkEligibilityWithRetry env.attempt).result with
        | error e => simp [processWalletCheck, hc, hs, hr]
        | ok resp =>
          cases hd : resp.data with
          | none => simp [processWalletCheck, hc, hs, hr, hd]
          | some d =>
            cases hda : d.amount with
            | none => simp [processWalletCheck, hc, hs, hr, hd, hda]
            | some a =>
              by_cases haz : a = "" ∨ a = "0"
              · simp [processWalletCheck, hc, hs, hr, hd, hda, haz]
              · have hps := hwf d a resp hr hd hda
                obtain ⟨n, hn⟩ := Option.isSome_iff_exists.mp hps
                simp [processWalletCheck, hc, hs, hr, hd, hda, haz, hn]
    · rw [show (processWalletCheck env w).threwOut = true from by
        simp [processWalletCheck, hc]] at hthrew
      simp at hthrew

/-- Witness for C9 (amended): in the all-success environment both
variants increment exactly one counter for their one appended row. -/
theorem c9_witness :
    (processWalletClaim envOk wdA).dSucc + (processWalletClaim envOk wdA).dFail = 1
    ∧ (processWalletClaim envOk wdA).appended.length = 1
    ∧ (processWalletCheck envOk wdA).dSucc + (processWalletCheck envOk wdA).dFail = 1
    ∧ (processWalletCheck envOk wdA).appended.length = 1 := by
  have h := c9_counters_match_rows envOk wdA
  have hwf : ∀ (d : EligData) (a : String) (resp : Response),
      (checkEligibilityWithRetry envOk.attempt).result = Except.ok resp →
      resp.data = some d → d.amount = some a → (parseBigNat a).isSome = true := by
    intro d a resp h1 h2 h3
    have h1b : (Except.ok respOkAmt : Except RetryError Response) = Except.ok resp := h1
    injection h1b with h1c
    subst h1c
    have h2b : some (⟨some "5", some "[]"⟩ : EligData) = some d := h2
    injection h2b with h2c
    subst h2c
    have h3b : some "5" = some a := h3
    injection h3b with h3c
    subst h3c
    rfl
  exact ⟨(h.1 rfl).1, (h.1 rfl).2, (h.2 rfl hwf).1, (h.2 rfl hwf).2⟩

/-- Replacing a ready slot by a running one adds exactly that index to
the running multiset. -/
theorem runIdx_set_running (l : List SlotState) (k i : Nat)
    (h : l[k]? = some SlotState.ready) :
    List.Perm (runningIndices (l.set k (SlotState.running i)))
      (i :: runningIndices l) := by
  induction l generalizing k with
  | nil => simp at h
  | cons a t ih =>
    cases k with
    | zero =>
      simp at h
      subst h
      simp [runningIndices, List.filterMap_cons]
    | succ k2 =>
      simp at h
      cases a with
      | ready =>
        simpa [runningIndices, List.filterMap_cons] using ih k2 h
      | done =>
        simpa [runningIndices, List.filterMap_cons] using ih k2 h
      | running j =>
        have hih := ih k2 h
        simp only [runningIndices, List.filterMap_cons] at hih ⊢
        simp only [List.set_cons_succ]
        simp only [List.filterMap_cons]
        exact (hih.cons j).trans (List.Perm.swap i j _)

/-- Replacing a running slot by a ready one removes exactly its index
from the running multiset. -/
theorem runIdx_set_ready (l : List SlotState) (k i : Nat)
    (h : l[k]? = some (SlotState.running i)) :
    List.Perm (runningIndices l)
      (i :: runningIndices (l.set k SlotState.ready)) := by
  induction l generalizing k with
  | nil => simp at h
  | cons a t ih =>
    cases k with
    | zero =>
      simp at h
      subst h
      simp [runningIndices, List.filterMap_cons]
    | succ k2 =>
      simp at h
      cases a with
      | ready =>
        simpa [runningIndices, List.filterMap_cons] using ih k2 h
      | done =>
        simpa [runningIndices, List.filterMap_cons] using ih k2 h
      | running j =>
        have hih := ih k2 h
        simp only [runningIndices, List.filterMap_cons] at hih ⊢
        simp only [List.set_cons_succ]
        simp only [List.filterMap_cons]
        exact (hih.cons j).trans (List.Perm.swap i j _)

/-- Retiring a ready slot leaves the running multiset unchanged. -/
theorem runIdx_set_done (l : List SlotState) (k : Nat)
    (h : l[k]? = some SlotState.ready) :
    runningIndices (l.set k SlotState.done) = runningIndices l := by
  induction l generalizing k with
  | nil => simp at h
  | cons a t ih =>
    cases k with
    | zero =>
      simp at h
      subst h
      simp [runningIndices, List.filterMap_cons]
    | succ k2 =>
      simp at h
      cases a with
      | ready => simpa [runningIndices, List.filterMap_cons] using ih k2 h
      | done => simpa [runningIndices, List.filterMap_cons] using ih k2 h
      | running j =>
        simp only [runningIndices, List.filterMap_cons] at ih ⊢
        simp only [List.set_cons_succ, List.filterMap_cons]
        exact congrArg (List.cons j) (ih k2 h)

/-- The pool invariant holds at the seeded initial state. -/
theorem poolInv_init (N C : Nat) : PoolInv N (poolInit C) := by
  have hrep : runningIndices (List.replicate C SlotState.ready) = [] := by
    rw [runningIndices, List.filterMap_eq_nil_iff]
    intro a ha
    rw [List.eq_of_mem_replicate ha]
  refine ⟨Nat.zero_le N, ?_, ?_⟩
  · show List.Perm ([] ++ runningIndices (List.replicate C SlotState.ready)) (List.range 0)
    simp [hrep]
  · intro hd
    have hr := List.eq_of_mem_replicate hd
    exact SlotState.noConfusion hr

/-- Every scheduler step preserves the pool invariant. -/
theorem poolInv_step (N : Nat) (s s2 : PoolState)
    (hinv : PoolInv N s) (hstep : PoolStep N s s2) : PoolInv N s2 := by
  obtain ⟨hc, hperm, hdone⟩ := hinv
  cases hstep with
  | take k h hcur =>
    refine ⟨?_, ?_, ?_⟩
    · show s.cursor + 1 ≤ N
      omega
    · show List.Perm
        (s.taken ++ runningIndices (s.slots.set k (SlotState.running s.cursor)))
        (List.range (s.cursor + 1))
      have hA := runIdx_set_running s.slots k s.cursor h
      have h1 : List.Perm
          (s.taken ++ runningIndices (s.slots.set k (SlotState.running s.cursor)))
          (s.taken ++ (s.cursor :: runningIndices s.slots)) :=
        List.Perm.append_left s.taken hA
      have h2 : List.Perm (s.taken ++ (s.cursor :: runningIndices s.slots))
          (s.cursor :: (s.taken ++ runningIndices s.slots)) := List.perm_middle
      have h3 : List.Perm (s.cursor :: (s.taken ++ runningIndices s.slots))
          (s.cursor :: List.range s.cursor) := hperm.cons s.cursor
      have h4 : List.Perm (s.cursor :: List.range s.cursor)
          (List.range (s.cursor + 1)) := by
        rw [List.range_succ]
        simpa using (@List.perm_middle Nat s.cursor (List.range s.cursor) []).symm
      exact ((h1.trans h2).trans h3).trans h4
    · show SlotState.done ∈ s.slots.set k (SlotState.running s.cursor) → s.cursor + 1 = N
      intro hd
      rcases List.mem_or_eq_of_mem_set hd with h1 | h1
      · exact absurd (hdone h1) (by omega)
      · exact SlotState.noConfusion h1
  | finish k i h =>
    refine ⟨hc, ?_, ?_⟩
    · show List.Perm
        ((s.taken ++ [i]) ++ runningIndices (s.slots.set k SlotState.ready))
        (List.range s.cursor)
      have hB := runIdx_set_ready s.slots k i h
      have h1 : List.Perm
          ((s.taken ++ [i]) ++ runningIndices (s.slots.set k SlotState.ready))
          (s.taken ++ (i :: runningIndices (s.slots.set k SlotState.ready))) := by
        rw [List.append_assoc]
        exact List.Perm.refl _
      have h2 : List.Perm
          (s.taken ++ (i :: runningIndices (s.slots.set k SlotState.ready)))
          (s.taken ++ runningIndices s.slots) :=
        List.Perm.append_left s.taken hB.symm
      exact (h1.trans h2).trans hperm
    · show SlotState.done ∈ s.slots.set k SlotState.ready → s.cursor = N
      intro hd
      rcases List.mem_or_eq_of_mem_set hd with h1 | h1
      · exact hdone h1
      · exact SlotState.noConfusion h1
  | exit k h hcur =>
    refine ⟨hc, ?_, ?_⟩
    · show List.Perm (s.taken ++ runningIndices (s.slots.set k SlotState.done))
        (List.range s.cursor)
      rw [runIdx_set_done s.slots k h]
      exact hperm
    · show SlotState.done ∈ s.slots.set k SlotState.done → s.cursor = N
      intro _
      omega

/-- Every reachable pool state satisfies the invariant. -/
theorem poolInv_reachable (N C : Nat) (s : PoolState)
    (h : PoolReachable N C s) : PoolInv N s := by
  induction h with
  | refl => exact poolInv_init N C
  | tail _ hstep ih => exact poolInv_step N _ _ ih hstep

/-- The number of slots never changes: it stays the seeded count. -/
theorem pool_slots_length (N C : Nat) (s : PoolState)
    (h : PoolReachable N C s) : s.slots.length = C := by
  induction h with
  | refl => simp [poolInit]
  | tail _ hstep ih =>
    cases hstep with
    | take k hk hcur => simpa using ih
    | finish k i hk => simpa using ih
    | exit k hk hcur => simpa using ih

/-- A drained pool has no running slot. -/
theorem runIdx_nil_of_allDone (s : PoolState) (h : AllDone s) :
    runningIndices s.slots = [] := by
  rw [runningIndices, List.filterMap_eq_nil_iff]
  intro a ha
  simp [h a ha]

/-- A flatMap over singleton-producing functions preserves length. -/
theorem flatMap_length_of_singletons {α β : Type} (l : List α) (f : α → List β)
    (h : ∀ a ∈ l, (f a).length = 1) : (l.flatMap f).length = l.length := by
  induction l with
  | nil => rfl
  | cons a t ih =>
    rw [List.flatMap_cons, List.length_append, h a (List.mem_cons_self a t),
      ih (fun x hx => h x (List.mem_cons_of_mem a hx))]
    simp [Nat.add_comm]

/-- The terminal state of the one-wallet, one-slot run is reachable:
the slot takes wallet 0, finishes it, and retires. -/
theorem poolS1_reachable : PoolReachable 1 1 poolS1 := by
  have h0 : Relation.ReflTransGen (PoolStep 1) (poolInit 1) (poolInit 1) :=
    Relation.ReflTransGen.refl
  have h1 : PoolStep 1 (poolInit 1) ⟨1, [SlotState.running 0], []⟩ :=
    PoolStep.take (poolInit 1) 0 rfl (by decide)
  have h2 : PoolStep 1 ⟨1, [SlotState.running 0], []⟩ ⟨1, [SlotState.ready], [0]⟩ :=
    PoolStep.finish ⟨1, [SlotState.running 0], []⟩ 0 0 rfl
  have h3 : PoolStep 1 ⟨1, [SlotState.ready], [0]⟩ poolS1 :=
    PoolStep.exit ⟨1, [SlotState.ready], [0]⟩ 0 rfl (by decide)
  exact ((h0.tail h1).tail h2).tail h3

/-- Counterexample to C1: a completed run of the scheduler over ONE
wallet and concurrency 1 whose wallet constructor throws (an invalid
private key in wallet.csv) records ZERO outcomes — the wallet is taken
exactly once, its processWallet throws before the try block, the
processOne catch swallows the error without recording anything, and the
pool still drains; so the claim that exactly N outcomes are always
appended regardless of which stage fails is false. -/
theorem c1_counterexample :
    PoolReachable 1 1 poolS1 ∧ AllDone poolS1
    ∧ poolRecords (fun _ => envCtorFail) (fun _ => wdA) poolS1 = [] :=
  ⟨poolS1_reachable, by intro t ht; simp [poolS1] at ht; exact ht, rfl⟩

/-- C1 as amended: for every wallet count N, concurrency C with
1 ≤ C ≤ N, and every completed (all slots drained) reachable run of the
scheduler, PROVIDED each wallet's pre-try constructor calls succeed,
the processed indices are a permutation of 0..N-1 — every wallet is
processed exactly once, none twice and none dropped, regardless of
which stage inside the try block fails — and exactly N outcome records
are in the results list.  (A wallet whose constructor throws is still
taken exactly once but contributes no record, as the counterexample
shows.) -/
theorem c1_pool_outcomes (N C : Nat) (envs : Nat → WalletEnv) (datas : Nat → WalletData)
    (hC : 1 ≤ C) (_hCN : C ≤ N) (hctor : ∀ i, i < N → (envs i).ctorOk = true)
    (s : PoolState) (hreach : PoolReachable N C s) (hdone : AllDone s) :
    List.Perm s.taken (List.range N)
    ∧ (poolRecords envs datas s).length = N
    ∧ ∀ i, i < N → s.taken.count i = 1 := by
  obtain ⟨hc, hperm, hdone2⟩ := poolInv_reachable N C s hreach
  have hlen : s.slots.length = C := pool_slots_length N C s hreach
  have hrun : runningIndices s.slots = [] := runIdx_nil_of_allDone s hdone
  have hne : s.slots ≠ [] := by
    intro h0
    rw [h0] at hlen
    simp at hlen
    omega
  obtain ⟨t, ht⟩ := List.exists_mem_of_ne_nil s.slots hne
  have hmem : SlotState.done ∈ s.slots := (hdone t ht) ▸ ht
  have hcur : s.cursor = N := hdone2 hmem
  rw [hrun, List.append_nil, hcur] at hperm
  have hsing : ∀ i ∈ s.taken,
      ((fun i => (processWalletClaim (envs i) (datas i)).appended) i).length = 1 := by
    intro i hi
    have hiN : i < N := List.mem_range.mp (hperm.mem_iff.mp hi)
    obtain ⟨_, _, o, ho⟩ := pwc_shape (envs i) (datas i) (hctor i hiN)
    show ((processWalletClaim (envs i) (datas i)).appended).length = 1
    rw [ho]
    rfl
  refine ⟨hperm, ?_, ?_⟩
  · rw [poolRecords, flatMap_length_of_singletons s.taken _ hsing,
      hperm.length_eq, List.length_range]
  · intro i hi
    rw [hperm.count_eq]
    exact List.count_eq_one_of_mem (List.nodup_range N) (List.mem_range.mpr hi)

/-- Witness for C1 (amended): the completed one-wallet run in the
all-success environment has exactly one record and counts wallet 0
exactly once. -/
theorem c1_witness :
    (poolRecords (fun _ => envOk) (fun _ => wdA) poolS1).length = 1
    ∧ poolS1.taken.count 0 = 1 := by
  have h := c1_pool_outcomes 1 1 (fun _ => envOk) (fun _ => wdA)
    (by decide) (by decide) (fun i _ => rfl) poolS1 poolS1_reachable
    (by intro t ht; simp [poolS1] at ht; exact ht)
  exact ⟨h.2.1, h.2.2 0 (by decide)⟩
